import Mathlib

/-!
Verification development for the watchdog bot (`bot.py`): escalation
scheduling engine, cross-channel duplicate-identifier detector, and
reply-latency analytics accumulator.  Every definition below is a shallow
embedding of the corresponding Python code; timestamps are modelled as
integer epoch seconds, the `asyncio` event loop as an explicit fold over
timed events, and Python dict/set state as association lists.
-/

namespace Watchdog

/-! ## Python string truthiness helpers

`a or b` on Python strings yields `b` when `a` is empty, and on
`Optional[str]` also when `a` is `None`. -/

/-- Python `a or b` for `str` values (empty string is falsy). -/
def pyStrOr (a b : String) : String := if a = "" then b else a

/-- Python `a or b` where `a : Optional[str]` (both `None` and `""` are falsy). -/
def pyOptStrOr (a : Option String) (b : String) : String :=
  match a with
  | none => b
  | some s => if s = "" then b else s

/-! ## Identifier extractor (`_PIN_LOAD_RE`, `_extract_pin_load_ids`)

The source regex is
`(?mi)^\s*(?:📍\s*)?(\d+)\s*#\s*[:：-]?\s*([A-Z0-9]{6,20})\b`
run with `re.findall` over the whole message text.  The character classes
`\s`, `\d`, `[A-Z0-9]` (with `IGNORECASE`) and the `\b` word class are
modelled by their ASCII parts; note `\s` matches the newline, so with the
`MULTILINE` anchor a single match may span lines. -/

/-- The `📍` marker glyph (U+1F4CD). -/
def pinGlyph : Char := Char.ofNat 0x1F4CD

/-- The fullwidth colon `：` (U+FF1A) accepted as a second separator. -/
def fwColon : Char := Char.ofNat 0xFF1A

/-- Membership in the regex class `\s` (ASCII part). -/
def isWs (c : Char) : Bool :=
  c = ' ' || c = '\t' || c = '\n' || c = '\r' || c = Char.ofNat 0x0b || c = Char.ofNat 0x0c

/-- Membership in the regex class `\d` (ASCII part). -/
def isDigitCh (c : Char) : Bool := '0' ≤ c && c ≤ '9'

/-- Membership in `[A-Z0-9]` under `IGNORECASE` (ASCII part). -/
def isTokenCh (c : Char) : Bool :=
  ('A' ≤ c && c ≤ 'Z') || ('a' ≤ c && c ≤ 'z') || ('0' ≤ c && c ≤ '9')

/-- Membership in the word class `\w` used by the `\b` boundary (ASCII part). -/
def isWordCh (c : Char) : Bool := isTokenCh c || c = '_'

/-- Membership in the optional second separator class `[:：-]`. -/
def isSepCh (c : Char) : Bool := c = ':' || c = fwColon || c = '-'

/-- The part of the regex after the `#`: optional whitespace, the
optional second separator, optional whitespace, then the token
`([A-Z0-9]{6,20})\b`.  The regex is deterministic except for the bounded
token repetition, whose greedy-with-`\b` backtracking is equivalent to:
the maximal alphanumeric run must have length 6–20 and be followed by a
non-word character or the end of the text. -/
def parseTail (cs4 : List Char) : Option (List Char × List Char) :=
  let cs5 := cs4.dropWhile isWs
  let cs6 := match cs5 with
    | c :: t => if isSepCh c then t else cs5
    | [] => cs5
  let cs7 := cs6.dropWhile isWs
  let run := cs7.takeWhile isTokenCh
  let rest := cs7.drop run.length
  if 6 ≤ run.length && run.length ≤ 20 &&
      (match rest with | [] => true | c :: _ => !isWordCh c) then
    some (run, rest)
  else none

/-- One anchored attempt of the whole pin-load regex at the start of
`cs` (the position right after `^`).  On success returns the captured
token and the remainder of the text after the match. -/
def parsePinAt (cs : List Char) : Option (List Char × List Char) :=
  let cs1 := cs.dropWhile isWs
  let cs2 := match cs1 with
    | c :: t => if c = pinGlyph then t.dropWhile isWs else cs1
    | [] => cs1
  let ds := cs2.takeWhile isDigitCh
  if ds.isEmpty then none
  else
    match (cs2.drop ds.length).dropWhile isWs with
    | '#' :: cs4 => parseTail cs4
    | _ => none

/-- The `re.findall` scan: try the pattern at every position where the
`(?m)^` anchor holds (the start of the text and every position following a
newline), and after a successful match continue scanning at the match end.
`atAnchor` records whether the current position is such an anchor.  The
fuel argument dominates the number of scan steps; `findPinTokens` supplies
enough for the whole text. -/
def scanPinsFuel : Nat → Bool → List Char → List (List Char)
  | 0, _, _ => []
  | _ + 1, _, [] => []
  | fuel + 1, atAnchor, c :: rest =>
    if atAnchor then
      match parsePinAt (c :: rest) with
      | some (tok, rem) => tok :: scanPinsFuel fuel false rem
      | none => scanPinsFuel fuel (c = '\n') rest
    else scanPinsFuel fuel (c = '\n') rest

/-- All tokens captured by `re.findall` over `text`, in match order. -/
def findPinTokens (text : List Char) : List (List Char) :=
  scanPinsFuel (text.length + 1) true text

/-- `f"PIN:{load_id.upper()}"`. -/
def pinKeyOf (tok : List Char) : String :=
  "PIN:" ++ String.mk (tok.map Char.toUpper)

/-- Append `x` unless already present (the effect of `set.add` on the
iteration order of first occurrences). -/
def addIfAbsent (acc : List String) (x : String) : List String :=
  if x ∈ acc then acc else acc ++ [x]

/-- `_extract_pin_load_ids`: the set of normalized identifiers in `text`,
as the list of first occurrences. -/
def extractPinLoadIds (text : String) : List String :=
  (findPinTokens text.toList).foldl (fun acc tok => addIfAbsent acc (pinKeyOf tok)) []

/-! ## Message and chat model (the slice of the transport types the core reads) -/

/-- Chat types distinguished by the handlers. -/
inductive PyChatType
  | group
  | supergroup
  | private_
  | channel
deriving DecidableEq

/-- A chat, as read by the duplicate detector (`msg.chat`). -/
structure PyChat where
  id : Int
  title : Option String
  type : PyChatType
deriving DecidableEq

/-- A user (`msg.from_user` / `msg.forward_from`). -/
structure PyUser where
  userId : Int
  fullName : String
  username : Option String
  isBot : Bool
deriving DecidableEq

/-- A chat referenced by `msg.forward_from_chat`. -/
structure PyChatRef where
  title : Option String
  username : Option String
deriving DecidableEq

/-- The slice of a Telegram message the duplicate detector reads. -/
structure PyMsg where
  chat : Option PyChat
  text : Option String
  caption : Option String
  fromUser : Option PyUser
  forwardFrom : Option PyUser
  forwardFromChat : Option PyChatRef
deriving DecidableEq

/-- `msg.text or msg.caption or ""`. -/
def msgTextOf (m : PyMsg) : String :=
  pyOptStrOr m.text (pyOptStrOr m.caption "")

/-- The sender-name derivation of `process_pin_duplicate_forward`:
`forward_from.full_name`, else `forward_from_chat.title or
"@" + (forward_from_chat.username or "unknown")`, else
`from_user.full_name`, else `"(unknown)"`. -/
def senderNameOf (m : PyMsg) : String :=
  match m.forwardFrom with
  | some u => u.fullName
  | none =>
    match m.forwardFromChat with
    | some c => pyOptStrOr c.title ("@" ++ pyOptStrOr c.username "unknown")
    | none =>
      match m.fromUser with
      | some u => u.fullName
      | none => "(unknown)"

/-! ## Duplicate detector state (`DUP_SEEN`, `DUP_ALERTED`) -/

/-- The duplicate-detector state: `DUP_SEEN` maps a key to
`(first_seen_epoch, first_group_id, first_group_title)`; `DUP_ALERTED` is
the set of `(key, group_id)` marks already alerted. -/
structure DupState where
  dupSeen : List (String × (Int × Int × String))
  dupAlerted : List (String × Int)
deriving DecidableEq

/-- `_purge_expired_duplicates`: drop records with
`ts < time.time() - DUP_TTL_SECONDS`, then drop marks whose key no longer
has a record — except that an empty `DUP_SEEN` short-circuits the whole
function and an empty `DUP_ALERTED` skips the mark cleanup. -/
def purgeExpiredDuplicates (now ttl : Int) (s : DupState) : DupState :=
  if s.dupSeen.isEmpty then s
  else
    let cutoff := now - ttl
    let seen := s.dupSeen.filter (fun kv => !(kv.2.1 < cutoff))
    let alerted :=
      if s.dupAlerted.isEmpty then s.dupAlerted
      else s.dupAlerted.filter (fun mk => (seen.lookup mk.1).isSome)
    ⟨seen, alerted⟩

/-- The rendered duplicate warning: exactly the data interpolated into the
`⚠️ WARNING` message sent to the MAIN group. -/
structure DupWarning where
  loadId : String
  group1 : String
  group2 : String
  sender : String
deriving DecidableEq

/-- `key.split(":", 1)[1]`: everything after the first colon. -/
def afterFirstColon (s : String) : String :=
  String.mk ((s.toList.dropWhile (fun c => c ≠ ':')).drop 1)

/-- One iteration of the `for key in keys` loop of
`process_pin_duplicate_forward`: baseline creation, same-channel skip,
mark-and-warn, or already-marked skip.  `warnOnDup` is the `WARN_ON_DUP`
configuration flag guarding the warning send. -/
def processKey (warnOnDup : Bool) (now : Int) (chat : PyChat) (msg : PyMsg)
    (key : String) (s : DupState) : DupState × Option DupWarning :=
  match s.dupSeen.lookup key with
  | none =>
    (⟨(key, (now, chat.id, pyOptStrOr chat.title ("id:" ++ toString chat.id))) :: s.dupSeen,
      s.dupAlerted⟩, none)
  | some (_, firstGid, firstTitle) =>
    if firstGid = chat.id then (s, none)
    else if (key, chat.id) ∈ s.dupAlerted then (s, none)
    else
      let s1 : DupState := ⟨s.dupSeen, (key, chat.id) :: s.dupAlerted⟩
      if warnOnDup then
        (s1, some ⟨afterFirstColon key,
                   pyStrOr firstTitle "(no title)",
                   pyOptStrOr chat.title "(no title)",
                   senderNameOf msg⟩)
      else (s1, none)

/-- The warning send sits in a `try`/`except` that only logs on failure:
the state update of `processKey` stands either way, and the warning is
delivered exactly when one was produced and the outbound send succeeded. -/
def processKeySend (warnOnDup sendOk : Bool) (now : Int) (chat : PyChat) (msg : PyMsg)
    (key : String) (s : DupState) : DupState × Bool :=
  match processKey warnOnDup now chat msg key s with
  | (s1, some _) => (s1, sendOk)
  | (s1, none) => (s1, false)

/-- The `for key in keys` loop, threading the state and collecting the
warnings produced. -/
def processKeys (warnOnDup : Bool) (now : Int) (chat : PyChat) (msg : PyMsg) :
    List String → DupState → DupState × List DupWarning
  | [], s => (s, [])
  | k :: ks, s =>
    let r := processKey warnOnDup now chat msg k s
    let rest := processKeys warnOnDup now chat msg ks r.1
    (rest.1, r.2.toList ++ rest.2)

/-- `process_pin_duplicate_forward`: guards (message present, chat present,
`MAIN_GROUP_ID` truthy, group-type chat, not the MAIN group itself), then
purge, extraction, and the per-key loop. -/
def processPinDuplicateForward (warnOnDup : Bool) (mainGroup : Option Int)
    (now ttl : Int) (msg : Option PyMsg) (s : DupState) : DupState × List DupWarning :=
  match msg with
  | none => (s, [])
  | some m =>
    match m.chat with
    | none => (s, [])
    | some chat =>
      match mainGroup with
      | none => (s, [])
      | some mg =>
        if mg = 0 then (s, [])
        else if !(chat.type = PyChatType.group || chat.type = PyChatType.supergroup) then (s, [])
        else if chat.id = mg then (s, [])
        else
          let s1 := purgeExpiredDuplicates now ttl s
          let keys := extractPinLoadIds (msgTextOf m)
          if keys.isEmpty then (s1, [])
          else processKeys warnOnDup now chat m keys s1

/-! ## Escalation scheduler (`PENDING`, `cancel_pending`, `schedule_alert`,
and the scheduler part of `driver_message_handler`)

For one watched channel, `PENDING` holds at most one `(task, last_msg)`
pair, modelled as the optional deadline `armedAt + ALERT_DELAY_SECONDS` of
the armed timer.  The single-threaded event loop is modelled as a fold
over timed inbound messages: before a message at time `t` is handled, a
timer whose deadline has been reached has already woken up and completed
(`fireDue`). -/

/-- The scheduler state for one channel: the deadline of the armed timer,
if any, and the number of escalation alerts sent to the MAIN group. -/
structure SchedState where
  pending : Option Int
  alerts : Nat
deriving DecidableEq

/-- Natural expiry of the armed timer: once `t` reaches the deadline the
delayed `_job` has run: it sends the alert only when `MAIN_GROUP_ID` is
set (otherwise it logs and skips), and in both cases its `finally` clause
pops the `PENDING` entry. -/
def fireDue (mainSet : Bool) (t : Int) (s : SchedState) : SchedState :=
  match s.pending with
  | some dl =>
    if dl ≤ t then ⟨none, s.alerts + (if mainSet then 1 else 0)⟩ else s
  | none => s

/-- An inbound message event for the channel, as the scheduler sees it. -/
structure InMsg where
  t : Int
  isBot : Bool
  isTeam : Bool
deriving DecidableEq

/-- The scheduler part of one `driver_message_handler` turn: a paused
channel is skipped entirely, a bot message stops before the watchdog, a
team message cancels the pending timer (`cancel_pending`), and any other
message re-arms via `schedule_alert` (which first cancels the existing
timer, then stores a fresh deadline `t + D`). -/
def schedStep (paused mainSet : Bool) (D : Int) (s : SchedState) (e : InMsg) : SchedState :=
  let s1 := fireDue mainSet e.t s
  if paused then s1
  else if e.isBot then s1
  else if e.isTeam then ⟨none, s1.alerts⟩
  else ⟨some (e.t + D), s1.alerts⟩

/-- Process a time-ordered sequence of inbound messages for the channel. -/
def schedRun (paused mainSet : Bool) (D : Int) (s : SchedState) (msgs : List InMsg) : SchedState :=
  msgs.foldl (schedStep paused mainSet D) s

/-! ## The delayed `_job`: order of its completion effects -/

/-- The externally visible effects of the delayed `_job` coroutine. -/
inductive JobAction
  | emitEscalation
  | removeEntry
deriving DecidableEq

/-- How a `_job` run can end: cancelled inside `asyncio.sleep`, woken with
`MAIN_GROUP_ID` unset, or woken with a target configured (the send is
attempted in that case, successful or not). -/
inductive JobOutcome
  | cancelledDuringSleep
  | mainUnset
  | expiredWithMain
deriving DecidableEq

/-- The effect order of `_job`, read off its `try`/`finally`: the alert
send (when it happens) is inside the `try` body, and `PENDING.pop` is in
the `finally` clause, hence always last. -/
def jobCompletionTrace : JobOutcome → List JobAction
  | JobOutcome.cancelledDuringSleep => [JobAction.removeEntry]
  | JobOutcome.mainUnset => [JobAction.removeEntry]
  | JobOutcome.expiredWithMain => [JobAction.emitEscalation, JobAction.removeEntry]

/-- Modelled from the spec: on natural expiry "the component removes its
own table entry, then emits the EscalationEvent" — table removal first,
emission second. -/
def specExpiryTrace : List JobAction :=
  [JobAction.removeEntry, JobAction.emitEscalation]

/-! ## Reply-latency tracker (`LAST_DRIVER_TS`, `STATS`, `_record_reply`,
and the analytics part of `driver_message_handler`) -/

/-- One persisted stats record, as built by `_record_reply`. -/
structure StatRec where
  ts : Int
  ym : String
  userId : Int
  username : String
  name : String
  seconds : ℚ
deriving DecidableEq

/-- The latency-tracker state for one channel: the pending unanswered
driver-message timestamp and the append-only sample log. -/
structure LatencyState where
  lastDriverTs : Option Int
  stats : List StatRec
deriving DecidableEq

/-- `_record_reply`: builds the appended record.  `ymOf` stands for the
external `datetime.fromtimestamp(ts).strftime("%Y-%m")` bucket function
(timezone-dependent, hence a parameter of the model). -/
def recordReply (ymOf : Int → String) (userId : Int) (username name : String)
    (seconds : ℚ) (ts : Int) : StatRec :=
  ⟨ts, ymOf ts, userId, (pyStrOr username "").toLower, pyStrOr name "", seconds⟩

/-- The analytics step of one `driver_message_handler` turn (its part 2):
a team reply with a truthy stored timestamp records the elapsed time when
`0 <= diff <= MAX_REPLY_WINDOW_SEC` and clears the marker either way; any
other non-bot message overwrites the marker with `now`.  Note the Python
guard `if last_ts:` also rejects a stored timestamp equal to `0`. -/
def latencyStep (maxWindow : Int) (ymOf : Int → String) (now : Int)
    (user : Option PyUser) (isTeam : Bool) (s : LatencyState) : LatencyState :=
  match user with
  | none => s
  | some u =>
    if u.isBot then s
    else if isTeam then
      match s.lastDriverTs with
      | none => s
      | some ts =>
        if ts = 0 then s
        else
          let s1 :=
            if 0 ≤ now - ts ∧ now - ts ≤ maxWindow then
              { s with stats := s.stats ++
                  [recordReply ymOf u.userId (pyOptStrOr u.username "").toLower
                    (pyStrOr u.fullName "") ((now - ts : Int) : ℚ) now] }
            else s
          { s1 with lastDriverTs := none }
    else { s with lastDriverTs := some now }

/-! ## Monthly latency aggregation (`_build_analysis_text`) -/

/-- One `per_user` aggregate: display name, running sum and sample count. -/
structure AnalysisAgg where
  name : String
  sum : ℚ
  count : Nat
deriving DecidableEq

/-- `rec.get("name") or rec.get("username") or str(uid)`. -/
def defaultNameOf (r : StatRec) : String :=
  pyStrOr r.name (pyStrOr r.username (toString r.userId))

/-- `_is_allowed_username`: everyone when not filtering; nobody when the
MyTeam list is empty; otherwise lowercase membership in `ANALYZE_TEAM`. -/
def analysisAllowed (onlyMyTeam : Bool) (team : List String) (u : String) : Bool :=
  if !onlyMyTeam then true
  else if team.isEmpty then false
  else team.contains (pyStrOr u "").toLower

/-- The `per_user.setdefault` / `+=` update: bump the existing aggregate
for this user id in place, or append a fresh one. -/
def updateAssocAgg : List (Int × AnalysisAgg) → StatRec → List (Int × AnalysisAgg)
  | [], r => [(r.userId, ⟨defaultNameOf r, r.seconds, 1⟩)]
  | (k, a) :: rest, r =>
    if k = r.userId then (k, ⟨a.name, a.sum + r.seconds, a.count + 1⟩) :: rest
    else (k, a) :: updateAssocAgg rest r

/-- One iteration of the `for rec in STATS` loop: skip records outside the
month or outside the allow-list, otherwise fold into `per_user`. -/
def addStatRec (month : String) (onlyMyTeam : Bool) (team : List String)
    (acc : List (Int × AnalysisAgg)) (r : StatRec) : List (Int × AnalysisAgg) :=
  if r.ym ≠ month then acc
  else if !analysisAllowed onlyMyTeam team r.username then acc
  else updateAssocAgg acc r

/-- The `per_user` dict after the whole loop, in insertion order. -/
def perUserAgg (stats : List StatRec) (month : String) (onlyMyTeam : Bool)
    (team : List String) : List (Int × AnalysisAgg) :=
  stats.foldl (addStatRec month onlyMyTeam team) []

/-- One output row of the analysis: `(avg, count, name)` as in the source
tuple, with the source's `if d["count"] else 0.0` division guard. -/
structure AnalysisRow where
  avg : ℚ
  count : Nat
  name : String
deriving DecidableEq

/-- `avg = sum / count if count else 0.0`, packaged as a row. -/
def rowOfAgg (a : AnalysisAgg) : AnalysisRow :=
  ⟨if a.count = 0 then 0 else a.sum / (a.count : ℚ), a.count, a.name⟩

/-- The sort order of `rows.sort(key=lambda x: (x[0], -x[1]))`: ascending
average, ties broken by descending count. -/
def rowRel (a b : AnalysisRow) : Prop :=
  a.avg < b.avg ∨ (a.avg = b.avg ∧ b.count ≤ a.count)

instance : DecidableRel rowRel := fun a b =>
  inferInstanceAs (Decidable (a.avg < b.avg ∨ (a.avg = b.avg ∧ b.count ≤ a.count)))

instance : IsTrans AnalysisRow rowRel where
  trans a b c hab hbc := by
    rcases hab with h1 | ⟨h1, h2⟩ <;> rcases hbc with h3 | ⟨h3, h4⟩
    · exact Or.inl (h1.trans h3)
    · exact Or.inl (h3 ▸ h1)
    · exact Or.inl (h1 ▸ h3)
    · exact Or.inr ⟨h1.trans h3, h4.trans h2⟩

instance : IsTotal AnalysisRow rowRel where
  total a b := by
    rcases lt_trichotomy a.avg b.avg with h | h | h
    · exact Or.inl (Or.inl h)
    · rcases Nat.le_total b.count a.count with hc | hc
      · exact Or.inl (Or.inr ⟨h, hc⟩)
      · exact Or.inr (Or.inr ⟨h.symm, hc⟩)
    · exact Or.inr (Or.inl h)

/-- The row-building part of `_build_analysis_text`: aggregate per user,
turn each aggregate into `(avg, count, name)`, and sort (Python's
`list.sort` and insertion sort are both stable, so they agree). -/
def buildAnalysisRows (stats : List StatRec) (month : String) (onlyMyTeam : Bool)
    (team : List String) : List AnalysisRow :=
  List.insertionSort rowRel
    ((perUserAgg stats month onlyMyTeam team).map (fun p => rowOfAgg p.2))

/-- A record contributing to the aggregate of user `uid` for `month`. -/
def statMatches (month : String) (onlyMyTeam : Bool) (team : List String)
    (uid : Int) (r : StatRec) : Bool :=
  r.ym = month && analysisAllowed onlyMyTeam team r.username && r.userId = uid

/-- The directly-specified aggregate of user `uid`: name from the first
contributing record, the sum of its seconds, and the number of records. -/
def aggSpec (stats : List StatRec) (month : String) (onlyMyTeam : Bool)
    (team : List String) (uid : Int) : Option AnalysisAgg :=
  match stats.filter (statMatches month onlyMyTeam team uid) with
  | [] => none
  | r :: _ =>
    some ⟨defaultNameOf r,
          ((stats.filter (statMatches month onlyMyTeam team uid)).map StatRec.seconds).sum,
          (stats.filter (statMatches month onlyMyTeam team uid)).length⟩

/-! ## Spec-side definitions for the extractor claim -/

/-- Modelled from the spec: a line consisting of an optional marker glyph,
a numeric ordinal, the separator `#`, an optional second separator
(`:`, fullwidth colon, or hyphen), and a token of 6–20 alphanumeric
characters — nothing else on the line. -/
def specShapeLine (l : List Char) : Bool :=
  let l1 := match l with
    | c :: t => if c = pinGlyph then t else l
    | [] => l
  let ds := l1.takeWhile isDigitCh
  !ds.isEmpty &&
    (match l1.drop ds.length with
     | '#' :: r =>
       let r1 := match r with
         | c :: t => if isSepCh c then t else r
         | [] => r
       let run := r1.takeWhile isTokenCh
       6 ≤ run.length && run.length ≤ 20 && (r1.drop run.length).isEmpty
     | _ => false)

/-- The token of a well-shaped line (everything after the separators). -/
def specShapeToken (l : List Char) : List Char :=
  let l1 := match l with
    | c :: t => if c = pinGlyph then t else l
    | [] => l
  let ds := l1.takeWhile isDigitCh
  match l1.drop ds.length with
  | '#' :: r =>
    let r1 := match r with
      | c :: t => if isSepCh c then t else r
      | [] => r
    r1.takeWhile isTokenCh
  | _ => []

/-- Join lines with newline separators (no trailing newline). -/
def joinLines : List (List Char) → List Char
  | [] => []
  | [l] => l
  | l :: ls => l ++ '\n' :: joinLines ls

/-- The suffixes of `cs` starting right after each newline. -/
def tailAnchors : List Char → List (List Char)
  | [] => []
  | c :: rest =>
    if c = '\n' then rest :: tailAnchors rest else tailAnchors rest

/-- The suffixes of `cs` at which the `(?m)^` anchor holds during a scan
whose current position is an anchor iff `a`. -/
def anchorSuffixes (a : Bool) (cs : List Char) : List (List Char) :=
  (if a then [cs] else []) ++ tailAnchors cs

/-! ## Concrete fixtures for witnesses and counterexamples -/

/-- A first driver group. -/
def chatA : PyChat := ⟨1001, some "Group A", PyChatType.group⟩

/-- A second driver group. -/
def chatB : PyChat := ⟨1002, some "Group B", PyChatType.group⟩

/-- A non-team (driver) sender. -/
def userAlice : PyUser := ⟨7, "Alice", some "alice", false⟩

/-- Another sender. -/
def userBob : PyUser := ⟨8, "Bob", some "bob", false⟩

/-- A plain text message from `u` in chat `c`. -/
def msgIn (c : PyChat) (u : PyUser) (t : String) : PyMsg :=
  ⟨some c, some t, none, some u, none, none⟩

/-- The empty duplicate-detector state. -/
def dup0 : DupState := ⟨[], []⟩

/-- A state holding a baseline record for `PIN:ABCDEF` first seen in
`chatA` at time `0`. -/
def dupStateAB : DupState := ⟨[("PIN:ABCDEF", (0, 1001, "Group A"))], []⟩

/-- A constant year-month bucket function for concrete runs. -/
def ym0 : Int → String := fun _ => "2025-10"

/-! ## C10: guard conditions of the duplicate check -/

/-- C10: if no escalation target is configured (the `MAIN_GROUP_ID` guard,
which in the source also treats a configured id `0` as absent), or the
chat is not a group/supergroup, or the message arrived in the MAIN group
itself, `process_pin_duplicate_forward` returns with the duplicate state
untouched and emits nothing — in particular no baseline record is
created. -/
theorem claim_C10 (warnOnDup : Bool) (mainGroup : Option Int) (now ttl : Int)
    (m : PyMsg) (chat : PyChat) (s : DupState)
    (hchat : m.chat = some chat)
    (h : mainGroup = none ∨ mainGroup = some 0 ∨
         (chat.type ≠ PyChatType.group ∧ chat.type ≠ PyChatType.supergroup) ∨
         mainGroup = some chat.id) :
    processPinDuplicateForward warnOnDup mainGroup now ttl (some m) s = (s, []) := by
  simp only [processPinDuplicateForward]
  rw [hchat]
  rcases h with h | h | ⟨h1, h2⟩ | h
  · rw [h]
  · rw [h]; simp
  · cases mainGroup with
    | none => rfl
    | some mg =>
      by_cases hmg : mg = 0
      · simp [hmg]
      · have htype : (chat.type = PyChatType.group || chat.type = PyChatType.supergroup) = false := by
          cases hc : chat.type <;> simp_all
        simp [hmg, htype]
  · rw [h]
    by_cases hz : chat.id = 0
    · simp [hz]
    · cases hb : (chat.type = PyChatType.group || chat.type = PyChatType.supergroup) <;>
        simp [hz, hb]

/-- C10 witness: a concrete message in a group with no MAIN group
configured leaves the empty state untouched. -/
theorem claim_C10_witness :
    (msgIn chatA userAlice "1#:ABCDEF").chat = some chatA ∧
    processPinDuplicateForward true none 0 86400
      (some (msgIn chatA userAlice "1#:ABCDEF")) dup0 = (dup0, []) :=
  ⟨rfl, claim_C10 true none 0 86400 (msgIn chatA userAlice "1#:ABCDEF") chatA dup0 rfl
    (Or.inl rfl)⟩

/-! ## C4: the per-identifier duplicate check -/

/-- C4: for each checked identifier, with the warning enabled (the
default `WARN_ON_DUP=1`): no record → a baseline record for the current
channel is created and nothing is emitted; record for the same channel →
nothing; record for another channel and no `(key, channel)` mark →
the mark is added and exactly one warning is emitted, referencing the
recorded channel as first and the current channel as second; mark already
present → nothing. -/
theorem claim_C4 (warnOnDup : Bool) (now : Int) (chat : PyChat) (msg : PyMsg)
    (key : String) (s : DupState) (hw : warnOnDup = true) :
    (s.dupSeen.lookup key = none →
      processKey warnOnDup now chat msg key s =
        (⟨(key, (now, chat.id, pyOptStrOr chat.title ("id:" ++ toString chat.id))) :: s.dupSeen,
          s.dupAlerted⟩, none))
  ∧ (∀ ts ti, s.dupSeen.lookup key = some (ts, chat.id, ti) →
      processKey warnOnDup now chat msg key s = (s, none))
  ∧ (∀ ts gid ti, s.dupSeen.lookup key = some (ts, gid, ti) → gid ≠ chat.id →
      (key, chat.id) ∉ s.dupAlerted →
      processKey warnOnDup now chat msg key s =
        (⟨s.dupSeen, (key, chat.id) :: s.dupAlerted⟩,
         some ⟨afterFirstColon key, pyStrOr ti "(no title)",
               pyOptStrOr chat.title "(no title)", senderNameOf msg⟩))
  ∧ (∀ ts gid ti, s.dupSeen.lookup key = some (ts, gid, ti) →
      (key, chat.id) ∈ s.dupAlerted →
      processKey warnOnDup now chat msg key s = (s, none)) := by
  subst hw
  refine ⟨?_, ?_, ?_, ?_⟩
  · intro hnone
    unfold processKey
    rw [hnone]
  · intro ts ti hsome
    unfold processKey
    rw [hsome]
    simp
  · intro ts gid ti hsome hgid hmark
    unfold processKey
    rw [hsome]
    simp [hgid, hmark]
  · intro ts gid ti hsome hmark
    unfold processKey
    rw [hsome]
    by_cases hg : gid = chat.id <;> simp [hg, hmark]

/-- C4 witness: the cross-channel case at a concrete input — the record
points to `chatA`, the message arrives in `chatB`, the mark is added and
one warning naming `Group A` first and `Group B` second is emitted. -/
theorem claim_C4_witness :
    dupStateAB.dupSeen.lookup "PIN:ABCDEF" = some (0, 1001, "Group A") ∧
    (1001 : Int) ≠ chatB.id ∧ ("PIN:ABCDEF", chatB.id) ∉ dupStateAB.dupAlerted ∧
    processKey true 10 chatB (msgIn chatB userBob "2#:ABCDEF") "PIN:ABCDEF" dupStateAB =
      (⟨dupStateAB.dupSeen, ("PIN:ABCDEF", chatB.id) :: dupStateAB.dupAlerted⟩,
       some ⟨"ABCDEF", "Group A", "Group B", "Bob"⟩) := by
  refine ⟨by decide, by decide, by decide, ?_⟩
  have h := (claim_C4 true 10 chatB (msgIn chatB userBob "2#:ABCDEF") "PIN:ABCDEF"
    dupStateAB rfl).2.2.1 0 1001 "Group A" (by decide) (by decide) (by decide)
  rw [h]
  decide

/-! ## C3: failed duplicate-warning send does not retract the mark -/

/-- C3 counterexample: with a baseline in `chatA`, a cross-channel
occurrence in `chatB` whose outbound send fails still leaves the
`(key, chatB)` mark in place, and a later occurrence of the same key in
`chatB` emits nothing — the warning is never retried. -/
theorem claim_C3_counterexample :
    (processKeySend true false 10 chatB (msgIn chatB userBob "2#:ABCDEF")
        "PIN:ABCDEF" dupStateAB).2 = false ∧
    ("PIN:ABCDEF", chatB.id) ∈
      (processKeySend true false 10 chatB (msgIn chatB userBob "2#:ABCDEF")
        "PIN:ABCDEF" dupStateAB).1.dupAlerted ∧
    processKey true 20 chatB (msgIn chatB userBob "3#:ABCDEF") "PIN:ABCDEF"
      (processKeySend true false 10 chatB (msgIn chatB userBob "2#:ABCDEF")
        "PIN:ABCDEF" dupStateAB).1 =
      ((processKeySend true false 10 chatB (msgIn chatB userBob "2#:ABCDEF")
        "PIN:ABCDEF" dupStateAB).1, none) := by
  decide

/-- C3 amended: if the outbound send of a duplicate warning fails, the
exception is caught and only logged — the just-added mark is kept, so a
later occurrence of the same identifier in the same second channel emits
nothing (at-most-once delivery, not at-least-once). -/
theorem claim_C3_amended (now now2 : Int) (chat : PyChat) (msg msg2 : PyMsg)
    (key : String) (s : DupState) (ts gid : Int) (ti : String)
    (hrec : s.dupSeen.lookup key = some (ts, gid, ti)) (hgid : gid ≠ chat.id)
    (hmark : (key, chat.id) ∉ s.dupAlerted) :
    (processKeySend true false now chat msg key s).2 = false ∧
    (key, chat.id) ∈ (processKeySend true false now chat msg key s).1.dupAlerted ∧
    (processKeySend true false now chat msg key s).1.dupSeen = s.dupSeen ∧
    processKey true now2 chat msg2 key (processKeySend true false now chat msg key s).1 =
      ((processKeySend true false now chat msg key s).1, none) := by
  have hstep : processKeySend true false now chat msg key s =
      (⟨s.dupSeen, (key, chat.id) :: s.dupAlerted⟩, false) := by
    unfold processKeySend processKey
    rw [hrec]
    simp [hgid, hmark]
  rw [hstep]
  refine ⟨rfl, List.mem_cons_self _ _, rfl, ?_⟩
  unfold processKey
  rw [show (DupState.mk s.dupSeen ((key, chat.id) :: s.dupAlerted)).dupSeen.lookup key
        = some (ts, gid, ti) from hrec]
  simp [hgid]

/-- C3 amended witness: the concrete failed-send run. -/
theorem claim_C3_amended_witness :
    dupStateAB.dupSeen.lookup "PIN:ABCDEF" = some (0, 1001, "Group A") ∧
    (1001 : Int) ≠ chatB.id ∧ ("PIN:ABCDEF", chatB.id) ∉ dupStateAB.dupAlerted ∧
    ("PIN:ABCDEF", chatB.id) ∈
      (processKeySend true false 10 chatB (msgIn chatB userBob "2#:ABCDEF")
        "PIN:ABCDEF" dupStateAB).1.dupAlerted :=
  ⟨by decide, by decide, by decide,
   (claim_C3_amended 10 20 chatB (msgIn chatB userBob "2#:ABCDEF")
     (msgIn chatB userBob "3#:ABCDEF") "PIN:ABCDEF" dupStateAB 0 1001 "Group A"
     (by decide) (by decide) (by decide)).2.1⟩

/-! ## C7: contents of the emitted duplicate warning -/

/-- C7 counterexample: two histories that differ in the first message's
sender and text (Alice saying "hello" vs Bob saying "goodbye" in
`chatA`), and in the second message's trailing text ("xx" vs "yy"),
produce byte-identical duplicate warnings — so the emitted event carries
neither the first channel's sender, nor the first snippet, nor the second
snippet, contradicting the claim. -/
theorem claim_C7_counterexample :
    (processPinDuplicateForward true (some 500) 10 86400
       (some (msgIn chatB userBob "2#:ABCDEF xx"))
       (processPinDuplicateForward true (some 500) 0 86400
         (some (msgIn chatA userAlice "1#:ABCDEF hello")) dup0).1).2 =
    (processPinDuplicateForward true (some 500) 10 86400
       (some (msgIn chatB userBob "2#:ABCDEF yy"))
       (processPinDuplicateForward true (some 500) 0 86400
         (some (msgIn chatA userBob "1#:ABCDEF goodbye")) dup0).1).2 ∧
    (processPinDuplicateForward true (some 500) 10 86400
       (some (msgIn chatB userBob "2#:ABCDEF xx"))
       (processPinDuplicateForward true (some 500) 0 86400
         (some (msgIn chatA userAlice "1#:ABCDEF hello")) dup0).1).2.length = 1 ∧
    userAlice.fullName ≠ userBob.fullName ∧
    ("1#:ABCDEF hello" : String) ≠ "1#:ABCDEF goodbye" ∧
    ("2#:ABCDEF xx" : String) ≠ "2#:ABCDEF yy" := by
  decide

/-- C7 amended: every emitted duplicate warning consists of exactly the
load identifier, the first channel's recorded title, the second channel's
title, and the second message's sender name (best effort from forward
information) — no senders or snippets of the first message and no snippet
of the second. -/
theorem claim_C7_amended (warnOnDup : Bool) (now : Int) (chat : PyChat) (msg : PyMsg)
    (key : String) (s : DupState) (w : DupWarning)
    (h : (processKey warnOnDup now chat msg key s).2 = some w) :
    ∃ ts gid ti, s.dupSeen.lookup key = some (ts, gid, ti) ∧
      w.loadId = afterFirstColon key ∧
      w.group1 = pyStrOr ti "(no title)" ∧
      w.group2 = pyOptStrOr chat.title "(no title)" ∧
      w.sender = senderNameOf msg := by
  unfold processKey at h
  rcases hlook : s.dupSeen.lookup key with _ | ⟨ts, gid, ti⟩
  · rw [hlook] at h
    simp at h
  · rw [hlook] at h
    by_cases hg : gid = chat.id
    · simp [hg] at h
    · by_cases hm : (key, chat.id) ∈ s.dupAlerted
      · simp [hg, hm] at h
      · cases hw : warnOnDup
        · rw [hw] at h; simp [hg, hm] at h
        · rw [hw] at h
          simp [hg, hm] at h
          refine ⟨ts, gid, ti, rfl, ?_⟩
          rw [← h]
          exact ⟨rfl, rfl, rfl, rfl⟩

/-- C7 amended witness: a concrete emission has exactly these fields. -/
theorem claim_C7_amended_witness :
    (processKey true 10 chatB (msgIn chatB userBob "2#:ABCDEF") "PIN:ABCDEF"
       dupStateAB).2 = some ⟨"ABCDEF", "Group A", "Group B", "Bob"⟩ ∧
    ∃ ts gid ti, dupStateAB.dupSeen.lookup "PIN:ABCDEF" = some (ts, gid, ti) ∧
      ("ABCDEF" : String) = afterFirstColon "PIN:ABCDEF" ∧
      ("Group A" : String) = pyStrOr ti "(no title)" ∧
      ("Group B" : String) = pyOptStrOr chatB.title "(no title)" ∧
      ("Bob" : String) = senderNameOf (msgIn chatB userBob "2#:ABCDEF") :=
  ⟨by decide,
   claim_C7_amended true 10 chatB (msgIn chatB userBob "2#:ABCDEF") "PIN:ABCDEF"
     dupStateAB ⟨"ABCDEF", "Group A", "Group B", "Bob"⟩ (by decide)⟩

/-! ## C2: order of table removal and emission at natural expiry -/

/-- C2 counterexample: at a natural expiry with a configured target, the
delayed job's effect order is emission first and table removal second
(the `PENDING.pop` sits in the `finally` clause, after the send inside the
`try` body) — not the removal-before-emit order the claim states. -/
theorem claim_C2_counterexample :
    jobCompletionTrace JobOutcome.expiredWithMain =
      [JobAction.emitEscalation, JobAction.removeEntry] ∧
    jobCompletionTrace JobOutcome.expiredWithMain ≠ specExpiryTrace := by
  decide

/-- C2 amended: on every completion path of the delayed job the table
entry is removed exactly once and as the last effect; the escalation is
emitted only on natural expiry with a configured target, and then the
emission precedes the removal — so a disarm racing with an in-flight
expiry can still observe the entry present and remove it itself. -/
theorem claim_C2_amended (o : JobOutcome) :
    jobCompletionTrace o =
      (if o = JobOutcome.expiredWithMain then [JobAction.emitEscalation] else []) ++
        [JobAction.removeEntry] ∧
    (jobCompletionTrace o).getLast? = some JobAction.removeEntry ∧
    (jobCompletionTrace o).count JobAction.removeEntry = 1 ∧
    (JobAction.emitEscalation ∈ jobCompletionTrace o ↔ o = JobOutcome.expiredWithMain) := by
  cases o <;> decide

/-! ## C6: consuming the unanswered-driver marker on a qualified reply -/

/-- C6 counterexample: with a stored timestamp equal to `0` (the Python
guard `if last_ts:` treats it as absent), a qualified reply at time `5`
neither records a sample nor clears the marker — the stored timestamp
survives, contradicting the claim that it is cleared in either case. -/
theorem claim_C6_counterexample :
    latencyStep 300 ym0 5 (some userBob) true ⟨some 0, []⟩ = ⟨some 0, []⟩ ∧
    (LatencyState.mk (some 0) []).lastDriverTs ≠ none ∧
    userBob.isBot = false := by
  refine ⟨by decide, by decide, by decide⟩

/-- Equation lemma: a team reply with no stored marker is a no-op. -/
theorem latencyStep_team_none (maxW : Int) (ymOf : Int → String) (now : Int)
    (u : PyUser) (s : LatencyState) (hbot : u.isBot = false)
    (hts : s.lastDriverTs = none) :
    latencyStep maxW ymOf now (some u) true s = s := by
  simp [latencyStep, hbot, hts]

/-- Equation lemma: a team reply with a stored marker equal to `0` is a
no-op (the Python truthiness guard `if last_ts:`). -/
theorem latencyStep_team_zero (maxW : Int) (ymOf : Int → String) (now : Int)
    (u : PyUser) (s : LatencyState) (hbot : u.isBot = false)
    (hts : s.lastDriverTs = some 0) :
    latencyStep maxW ymOf now (some u) true s = s := by
  simp [latencyStep, hbot, hts]

/-- Equation lemma: a team reply with a nonzero stored marker clears it
and appends the sample exactly when the window test passes. -/
theorem latencyStep_team_some (maxW : Int) (ymOf : Int → String) (now : Int)
    (u : PyUser) (s : LatencyState) (ts : Int) (hbot : u.isBot = false)
    (hts : s.lastDriverTs = some ts) (hts0 : ts ≠ 0) :
    latencyStep maxW ymOf now (some u) true s =
      ⟨none, if 0 ≤ now - ts ∧ now - ts ≤ maxW
             then s.stats ++ [recordReply ymOf u.userId (pyOptStrOr u.username "").toLower
                    (pyStrOr u.fullName "") ((now - ts : Int) : ℚ) now]
             else s.stats⟩ := by
  by_cases hwin : 0 ≤ now - ts ∧ now - ts ≤ maxW
  · simp only [latencyStep, hbot, Bool.false_eq_true, if_false, hts, hts0, if_pos hwin]
    simp [hts0]
  · simp only [latencyStep, hbot, Bool.false_eq_true, if_false, hts, hts0, if_neg hwin]
    simp [hts0]

/-- C6 amended: for a qualified (team) reply from a non-bot user with a
*nonzero* stored timestamp, exactly one sample with
`elapsedSeconds = now − storedTimestamp` is appended iff
`0 ≤ elapsed ≤ maxReplyWindow`, and the marker is cleared in either case;
with no stored timestamp nothing happens; every newly recorded sample is
within the window and at most one sample is appended per step. -/
theorem claim_C6_amended (maxW : Int) (ymOf : Int → String) (now : Int) (u : PyUser)
    (s : LatencyState) (hbot : u.isBot = false) :
    (∀ ts, s.lastDriverTs = some ts → ts ≠ 0 →
      (latencyStep maxW ymOf now (some u) true s).lastDriverTs = none ∧
      ((0 ≤ now - ts ∧ now - ts ≤ maxW) →
        (latencyStep maxW ymOf now (some u) true s).stats =
          s.stats ++ [recordReply ymOf u.userId (pyOptStrOr u.username "").toLower
            (pyStrOr u.fullName "") ((now - ts : Int) : ℚ) now]) ∧
      (¬(0 ≤ now - ts ∧ now - ts ≤ maxW) →
        (latencyStep maxW ymOf now (some u) true s).stats = s.stats))
  ∧ (s.lastDriverTs = none → latencyStep maxW ymOf now (some u) true s = s)
  ∧ (latencyStep maxW ymOf now (some u) true s).stats.length ≤ s.stats.length + 1
  ∧ (∀ r ∈ (latencyStep maxW ymOf now (some u) true s).stats,
      r ∈ s.stats ∨ (0 ≤ r.seconds ∧ r.seconds ≤ (maxW : ℚ))) := by
  refine ⟨?_, ?_, ?_, ?_⟩
  · intro ts hts hts0
    rw [latencyStep_team_some maxW ymOf now u s ts hbot hts hts0]
    refine ⟨rfl, ?_, ?_⟩
    · intro hwin
      show (if 0 ≤ now - ts ∧ now - ts ≤ maxW then _ else s.stats) = _
      rw [if_pos hwin]
    · intro hwin
      show (if 0 ≤ now - ts ∧ now - ts ≤ maxW then _ else s.stats) = s.stats
      rw [if_neg hwin]
  · intro hts
    exact latencyStep_team_none maxW ymOf now u s hbot hts
  · rcases hts : s.lastDriverTs with _ | ts
    · rw [latencyStep_team_none maxW ymOf now u s hbot hts]
      exact Nat.le_succ _
    · by_cases hts0 : ts = 0
      · subst hts0
        rw [latencyStep_team_zero maxW ymOf now u s hbot hts]
        exact Nat.le_succ _
      · rw [latencyStep_team_some maxW ymOf now u s ts hbot hts hts0]
        by_cases hwin : 0 ≤ now - ts ∧ now - ts ≤ maxW
        · show (if 0 ≤ now - ts ∧ now - ts ≤ maxW then _ else s.stats).length ≤ _
          rw [if_pos hwin]
          simp
        · show (if 0 ≤ now - ts ∧ now - ts ≤ maxW then _ else s.stats).length ≤ _
          rw [if_neg hwin]
          exact Nat.le_succ _
  · intro r hr
    rcases hts : s.lastDriverTs with _ | ts
    · rw [latencyStep_team_none maxW ymOf now u s hbot hts] at hr
      exact Or.inl hr
    · by_cases hts0 : ts = 0
      · subst hts0
        rw [latencyStep_team_zero maxW ymOf now u s hbot hts] at hr
        exact Or.inl hr
      · rw [latencyStep_team_some maxW ymOf now u s ts hbot hts hts0] at hr
        by_cases hwin : 0 ≤ now - ts ∧ now - ts ≤ maxW
        · rw [if_pos hwin] at hr
          have hr2 : r ∈ s.stats ++ [recordReply ymOf u.userId
              (pyOptStrOr u.username "").toLower (pyStrOr u.fullName "")
              ((now - ts : Int) : ℚ) now] := hr
          rcases List.mem_append.mp hr2 with hmem | hmem
          · exact Or.inl hmem
          · have hreq : r = recordReply ymOf u.userId (pyOptStrOr u.username "").toLower
                (pyStrOr u.fullName "") ((now - ts : Int) : ℚ) now :=
              List.mem_singleton.mp hmem
            refine Or.inr ?_
            rw [hreq]
            have h1 : ((0 : ℚ)) ≤ ((now - ts : Int) : ℚ) := by exact_mod_cast hwin.1
            have h2 : (((now - ts : Int) : ℚ)) ≤ (maxW : ℚ) := by exact_mod_cast hwin.2
            exact ⟨h1, h2⟩
        · rw [if_neg hwin] at hr
          exact Or.inl hr

/-- C6 amended witness: driver message at `t=100`, qualified reply at
`t=142` with a 300-second window — one sample of 42 seconds is recorded
and the marker is cleared. -/
theorem claim_C6_amended_witness :
    userBob.isBot = false ∧
    (LatencyState.mk (some 100) []).lastDriverTs = some 100 ∧ (100 : Int) ≠ 0 ∧
    (0 ≤ (142 - 100 : Int) ∧ (142 - 100 : Int) ≤ 300) ∧
    (latencyStep 300 ym0 142 (some userBob) true ⟨some 100, []⟩).lastDriverTs = none ∧
    (latencyStep 300 ym0 142 (some userBob) true ⟨some 100, []⟩).stats =
      [] ++ [recordReply ym0 userBob.userId (pyOptStrOr userBob.username "").toLower
        (pyStrOr userBob.fullName "") ((142 - 100 : Int) : ℚ) 142] := by
  have h := (claim_C6_amended 300 ym0 142 userBob ⟨some 100, []⟩ (by decide)).1
    100 rfl (by decide)
  exact ⟨by decide, rfl, by decide, by decide, h.1, h.2.1 (by decide)⟩

/-! ## C1: debounce — chatter below the delay plus a team reply never escalates -/

/-- Inter-arrival constraint of the debounce scenario: consecutive event
times are strictly increasing and strictly less than `D` apart. -/
def msgGap (D : Int) (a b : Int) : Prop := a < b ∧ b < a + D

instance (D : Int) : DecidableRel (msgGap D) := fun a b =>
  inferInstanceAs (Decidable (a < b ∧ b < a + D))

/-- The time of the first event of the scenario `ts ++ [tq]`. -/
def firstTime (ts : List Int) (tq : Int) : Int :=
  match ts with
  | t :: _ => t
  | [] => tq

/-- Debounce induction: starting from zero alerts with any pending
deadline strictly beyond the next event (and no pending timer at all on a
paused channel), a run of non-team messages with gaps below `D` followed
by a team reply ends unarmed with zero alerts. -/
theorem schedRun_no_alert_aux (paused mainSet : Bool) (D : Int) :
    ∀ (ts : List Int) (tq : Int) (s : SchedState),
      s.alerts = 0 →
      (∀ dl, s.pending = some dl → paused = false ∧ firstTime ts tq < dl) →
      List.Chain' (msgGap D) (ts ++ [tq]) →
      schedRun paused mainSet D s
        (ts.map (fun t => ⟨t, false, false⟩) ++ [⟨tq, false, true⟩]) = ⟨none, 0⟩ := by
  intro ts
  induction ts with
  | nil =>
    intro tq s halerts hpend hchain
    have hfire : fireDue mainSet tq s = s := by
      rcases hp : s.pending with _ | dl
      · simp [fireDue, hp]
      · have h2 := (hpend dl hp).2
        simp only [firstTime] at h2
        simp [fireDue, hp, not_le.mpr h2]
    show schedStep paused mainSet D s ⟨tq, false, true⟩ = ⟨none, 0⟩
    unfold schedStep
    rw [hfire]
    by_cases hpause : paused
    · rcases hp : s.pending with _ | dl
      · rw [if_pos hpause]
        cases s
        simp_all
      · exact absurd (hpend dl hp).1 (by simp [hpause])
    · rw [if_neg hpause]
      simp [halerts]
  | cons t ts ih =>
    intro tq s halerts hpend hchain
    have hfire : fireDue mainSet t s = s := by
      rcases hp : s.pending with _ | dl
      · simp [fireDue, hp]
      · have h2 := (hpend dl hp).2
        simp only [firstTime] at h2
        simp [fireDue, hp, not_le.mpr h2]
    have hchainTail : List.Chain' (msgGap D) (ts ++ [tq]) := by
      rcases ts with _ | ⟨t2, ts2⟩
      · simp
      · exact (List.chain'_cons.mp hchain).2
    have hgapNext : firstTime ts tq < t + D := by
      rcases ts with _ | ⟨t2, ts2⟩
      · simp only [firstTime]
        exact ((List.chain'_cons.mp hchain).1).2
      · simp only [firstTime]
        exact ((List.chain'_cons.mp hchain).1).2
    show schedRun paused mainSet D
        (schedStep paused mainSet D s ⟨t, false, false⟩)
        (ts.map (fun x => ⟨x, false, false⟩) ++ [⟨tq, false, true⟩]) = ⟨none, 0⟩
    have hstep : schedStep paused mainSet D s ⟨t, false, false⟩ =
        if paused then s else ⟨some (t + D), s.alerts⟩ := by
      unfold schedStep
      rw [hfire]
      by_cases hpause : paused <;> simp [hpause]
    rw [hstep]
    by_cases hpause : paused
    · rw [if_pos hpause]
      refine ih tq s halerts ?_ hchainTail
      intro dl hdl
      exact absurd (hpend dl hdl).1 (by simp [hpause])
    · rw [if_neg hpause]
      refine ih tq ⟨some (t + D), s.alerts⟩ halerts ?_ hchainTail
      intro dl hdl
      have h3 : t + D = dl := by
        simpa using hdl
      exact ⟨by simp [hpause], h3 ▸ hgapNext⟩

/-- C1: for any sequence of non-team, non-bot messages in one channel
whose inter-arrival gaps (including the gap to the final team reply) are
strictly below the escalation delay `D`, the scheduler ends with no
pending timer and zero emitted escalations — re-arming always replaces
the previous timer (the state holds at most one deadline), so only
sustained silence of length at least `D` can fire. -/
theorem claim_C1 (paused mainSet : Bool) (D : Int) (ts : List Int) (tq : Int)
    (hchain : List.Chain' (msgGap D) (ts ++ [tq])) :
    schedRun paused mainSet D ⟨none, 0⟩
      (ts.map (fun t => ⟨t, false, false⟩) ++ [⟨tq, false, true⟩]) = ⟨none, 0⟩ :=
  schedRun_no_alert_aux paused mainSet D ts tq ⟨none, 0⟩ rfl
    (fun _ hdl => by simp at hdl) hchain

/-- C1 witness: delay 90, driver messages at 0, 30, 60 and a team reply
at 65 produce zero escalations. -/
theorem claim_C1_witness :
    List.Chain' (msgGap 90) ([0, 30, 60] ++ [65]) ∧
    schedRun false true 90 ⟨none, 0⟩
      ([0, 30, 60].map (fun t => ⟨t, false, false⟩) ++ [⟨65, false, true⟩]) = ⟨none, 0⟩ :=
  ⟨by simp [List.chain'_cons, msgGap],
   claim_C1 false true 90 [0, 30, 60] 65 (by simp [List.chain'_cons, msgGap])⟩

/-! ## C5: TTL purge and lockstep mark purge -/


/-- The lockstep invariant of the running system: every alert mark's
identifier still has a `DUP_SEEN` record.  It holds initially (both maps
empty) and is preserved by every operation below. -/
def markInv (s : DupState) : Prop :=
  ∀ mk ∈ s.dupAlerted, (s.dupSeen.lookup mk.1).isSome

/-- An association-list lookup succeeds iff some entry carries the key. -/
theorem lookup_isSome_iff_mem {β : Type} (l : List (String × β)) (k : String) :
    (l.lookup k).isSome ↔ ∃ v, (k, v) ∈ l := by
  induction l with
  | nil => simp [List.lookup]
  | cons p rest ih =>
    obtain ⟨k1, v1⟩ := p
    by_cases h : k = k1
    · subst h
      simp [List.lookup]
    · have hbeq : (k == k1) = false := by simp [h]
      simp [List.lookup, hbeq, ih, h]

/-- Purge keeps exactly the records whose age is at most the TTL. -/
theorem purge_seen_mem (now ttl : Int) (s : DupState) (k : String) (e : Int × Int × String) :
    (k, e) ∈ (purgeExpiredDuplicates now ttl s).dupSeen ↔
      ((k, e) ∈ s.dupSeen ∧ now - e.1 ≤ ttl) := by
  unfold purgeExpiredDuplicates
  by_cases hemp : s.dupSeen.isEmpty
  · rw [if_pos hemp]
    have hnil : s.dupSeen = [] := List.isEmpty_iff.mp hemp
    simp [hnil]
  · rw [if_neg hemp]
    simp only [List.mem_filter]
    constructor
    · rintro ⟨hm, hc⟩
      refine ⟨hm, ?_⟩
      simp only [Bool.not_eq_true', decide_eq_false_iff_not, not_lt] at hc
      omega
    · rintro ⟨hm, hc⟩
      refine ⟨hm, ?_⟩
      simp only [Bool.not_eq_true', decide_eq_false_iff_not, not_lt]
      omega

/-- Under the lockstep invariant, purge keeps exactly the marks whose
identifier still has a surviving record. -/
theorem purge_alerted_mem (now ttl : Int) (s : DupState) (hinv : markInv s)
    (mk : String × Int) :
    mk ∈ (purgeExpiredDuplicates now ttl s).dupAlerted ↔
      (mk ∈ s.dupAlerted ∧
        (((purgeExpiredDuplicates now ttl s).dupSeen).lookup mk.1).isSome) := by
  by_cases hemp : s.dupSeen.isEmpty
  · have hnil : s.dupSeen = [] := List.isEmpty_iff.mp hemp
    have hp : purgeExpiredDuplicates now ttl s = s := by
      unfold purgeExpiredDuplicates
      rw [if_pos hemp]
    rw [hp]
    constructor
    · intro hmk
      have hsome := hinv mk hmk
      rw [hnil] at hsome
      simp [List.lookup] at hsome
    · rintro ⟨hmk, _⟩
      exact hmk
  · have hp : (purgeExpiredDuplicates now ttl s).dupSeen =
        s.dupSeen.filter (fun kv => !(kv.2.1 < now - ttl)) := by
      unfold purgeExpiredDuplicates
      rw [if_neg hemp]
    by_cases hae : s.dupAlerted.isEmpty
    · have hanil : s.dupAlerted = [] := List.isEmpty_iff.mp hae
      have hpa : (purgeExpiredDuplicates now ttl s).dupAlerted = s.dupAlerted := by
        unfold purgeExpiredDuplicates
        rw [if_neg hemp]
        simp [hae]
      rw [hpa, hanil]
      simp
    · have hpa : (purgeExpiredDuplicates now ttl s).dupAlerted =
          s.dupAlerted.filter
            (fun m => (((s.dupSeen.filter (fun kv => !(kv.2.1 < now - ttl))).lookup m.1)).isSome) := by
        unfold purgeExpiredDuplicates
        rw [if_neg hemp]
        simp [hae]
      rw [hpa, hp]
      simp [List.mem_filter]

/-- Purge preserves the lockstep invariant. -/
theorem markInv_purge (now ttl : Int) (s : DupState) (hinv : markInv s) :
    markInv (purgeExpiredDuplicates now ttl s) := by
  intro mk hmk
  exact ((purge_alerted_mem now ttl s hinv mk).mp hmk).2

/-- Each per-key duplicate check preserves the lockstep invariant. -/
theorem markInv_processKey (warnOnDup : Bool) (now : Int) (chat : PyChat) (msg : PyMsg)
    (key : String) (s : DupState) (hinv : markInv s) :
    markInv ((processKey warnOnDup now chat msg key s).1) := by
  rcases hlook : s.dupSeen.lookup key with _ | ⟨ts, gid, ti⟩
  · have hstate : (processKey warnOnDup now chat msg key s).1 =
        ⟨(key, (now, chat.id, pyOptStrOr chat.title ("id:" ++ toString chat.id))) :: s.dupSeen,
          s.dupAlerted⟩ := by
      unfold processKey
      rw [hlook]
    rw [hstate]
    intro mk hmk
    have hmk2 : mk ∈ s.dupAlerted := hmk
    have hsome := hinv mk hmk2
    by_cases hk : mk.1 = key
    · simp [List.lookup, hk]
    · have hbeq : (mk.1 == key) = false := by simp [hk]
      simpa [List.lookup, hbeq] using hsome
  · by_cases hg : gid = chat.id
    · have hstate : (processKey warnOnDup now chat msg key s).1 = s := by
        unfold processKey
        rw [hlook]
        simp [hg]
      rw [hstate]
      exact hinv
    · by_cases hm : (key, chat.id) ∈ s.dupAlerted
      · have hstate : (processKey warnOnDup now chat msg key s).1 = s := by
          unfold processKey
          rw [hlook]
          simp [hg, hm]
        rw [hstate]
        exact hinv
      · have hstate : (processKey warnOnDup now chat msg key s).1 =
            ⟨s.dupSeen, (key, chat.id) :: s.dupAlerted⟩ := by
          unfold processKey
          rw [hlook]
          cases warnOnDup <;> simp [hg, hm]
        rw [hstate]
        intro mk hmk
        rcases List.mem_cons.mp hmk with heq | hmem
        · subst heq
          simp [hlook]
        · exact hinv mk hmem

/-- A baseline for `PIN:111X58WPC` seen in group 1001 at time `0`. -/
def dupTTLState : DupState := ⟨[("PIN:111X58WPC", (0, 1001, "Group A"))], []⟩

/-- C5: before each batch of checks, every record older than the TTL is
purged and (under the lockstep invariant, which purge and the per-key
check both preserve) every mark whose identifier lost its record is
purged with it; consequently an identifier whose records have all
expired is treated as a fresh baseline on reappearance in any channel
and produces no event. -/
theorem claim_C5 (now ttl : Int) (s : DupState) (hinv : markInv s) :
    (∀ k e, (k, e) ∈ (purgeExpiredDuplicates now ttl s).dupSeen ↔
        ((k, e) ∈ s.dupSeen ∧ now - e.1 ≤ ttl))
  ∧ (∀ mk, mk ∈ (purgeExpiredDuplicates now ttl s).dupAlerted ↔
        (mk ∈ s.dupAlerted ∧
          (((purgeExpiredDuplicates now ttl s).dupSeen).lookup mk.1).isSome))
  ∧ markInv (purgeExpiredDuplicates now ttl s)
  ∧ (∀ (warnOnDup : Bool) (chat : PyChat) (msg : PyMsg) (key : String),
      markInv ((processKey warnOnDup now chat msg key s).1))
  ∧ (∀ (warnOnDup : Bool) (chat : PyChat) (msg : PyMsg) (key : String),
      (∀ e, (key, e) ∈ s.dupSeen → ttl < now - e.1) →
      processKey warnOnDup now chat msg key (purgeExpiredDuplicates now ttl s) =
        (⟨(key, (now, chat.id, pyOptStrOr chat.title ("id:" ++ toString chat.id))) ::
            (purgeExpiredDuplicates now ttl s).dupSeen,
          (purgeExpiredDuplicates now ttl s).dupAlerted⟩, none)) := by
  refine ⟨purge_seen_mem now ttl s, purge_alerted_mem now ttl s hinv,
          markInv_purge now ttl s hinv,
          fun warnOnDup chat msg key => markInv_processKey warnOnDup now chat msg key s hinv,
          ?_⟩
  intro warnOnDup chat msg key hexp
  have hlook : (purgeExpiredDuplicates now ttl s).dupSeen.lookup key = none := by
    rcases hl : (purgeExpiredDuplicates now ttl s).dupSeen.lookup key with _ | v
    · rfl
    · exfalso
      have hsome : ((purgeExpiredDuplicates now ttl s).dupSeen.lookup key).isSome := by
        rw [hl]
        rfl
      obtain ⟨v2, hv2⟩ := (lookup_isSome_iff_mem _ key).mp hsome
      obtain ⟨hmem, hle⟩ := (purge_seen_mem now ttl s key v2).mp hv2
      exact absurd (hexp v2 hmem) (by omega)
  unfold processKey
  rw [hlook]

/-- C5 witness: TTL 86400, record from `t=0`, reappearance at `t=86401`
in another group: fresh baseline, no warning. -/
theorem claim_C5_witness :
    markInv dupTTLState ∧
    processKey true 86401 chatB (msgIn chatB userBob "1#:111X58WPC") "PIN:111X58WPC"
        (purgeExpiredDuplicates 86401 86400 dupTTLState) =
      (⟨[("PIN:111X58WPC", (86401, 1002, "Group B"))], []⟩, none) := by
  have hinv : markInv dupTTLState := by
    intro mk hmk
    simp [dupTTLState] at hmk
  refine ⟨hinv, ?_⟩
  have h := (claim_C5 86401 86400 dupTTLState hinv).2.2.2.2 true chatB
    (msgIn chatB userBob "1#:111X58WPC") "PIN:111X58WPC" ?_
  · rw [h]
    decide
  · intro e he
    simp [dupTTLState] at he
    rw [he]
    decide

/-! ## C8: monthly latency aggregation contract -/


/-- Lookup on a cons cell of an integer-keyed association list. -/
theorem lookup_cons_int {β : Type} (k1 : Int) (v1 : β) (rest : List (Int × β)) (k : Int) :
    List.lookup k ((k1, v1) :: rest) = if k = k1 then some v1 else List.lookup k rest := by
  by_cases h : k = k1
  · simp [List.lookup, h]
  · have hbeq : (k == k1) = false := by simp [h]
    simp [List.lookup, hbeq, h]

/-- Extending an aggregate with a batch of further matching records. -/
def extendAgg (a : AnalysisAgg) (ms : List StatRec) : AnalysisAgg :=
  ⟨a.name, a.sum + (ms.map StatRec.seconds).sum, a.count + ms.length⟩

/-- The `setdefault`/`+=` update changes only the record's own user key:
it bumps an existing aggregate or initialises a fresh one there. -/
theorem updateAssocAgg_lookup (r : StatRec) (uid : Int) :
    ∀ (acc : List (Int × AnalysisAgg)),
    (updateAssocAgg acc r).lookup uid =
      if uid = r.userId then
        (match acc.lookup r.userId with
         | some a => some ⟨a.name, a.sum + r.seconds, a.count + 1⟩
         | none => some ⟨defaultNameOf r, r.seconds, 1⟩)
      else acc.lookup uid := by
  intro acc
  induction acc with
  | nil =>
    by_cases h : uid = r.userId <;> simp [updateAssocAgg, lookup_cons_int, h]
  | cons p rest ih =>
    obtain ⟨k, a⟩ := p
    by_cases hk : k = r.userId
    · subst hk
      by_cases h : uid = r.userId <;> simp [updateAssocAgg, lookup_cons_int, h]
    · have h3 : ¬ r.userId = k := fun hc => hk hc.symm
      by_cases h : uid = k
      · subst h
        simp [updateAssocAgg, lookup_cons_int, hk, h3]
      · simp [updateAssocAgg, lookup_cons_int, hk, h, h3, ih]

/-- Characterisation of the `per_user` fold: for every user id, the
accumulated entry is its start value extended by exactly the records of
the month that pass the allow-list and carry that id. -/
theorem perUserAgg_foldl_lookup (month : String) (omt : Bool) (team : List String) :
    ∀ (stats : List StatRec) (acc : List (Int × AnalysisAgg)) (uid : Int),
      (stats.foldl (addStatRec month omt team) acc).lookup uid =
        (match acc.lookup uid with
         | some a => some (extendAgg a (stats.filter (statMatches month omt team uid)))
         | none => aggSpec stats month omt team uid) := by
  intro stats
  induction stats with
  | nil =>
    intro acc uid
    rw [List.foldl_nil]
    cases hl : acc.lookup uid with
    | none => simp [aggSpec]
    | some a => simp [extendAgg]
  | cons r stats ih =>
    intro acc uid
    by_cases hym : r.ym = month
    · by_cases hallow : analysisAllowed omt team r.username = true
      · have hstep : addStatRec month omt team acc r = updateAssocAgg acc r := by
          simp [addStatRec, hym, hallow]
        rw [List.foldl_cons, hstep, ih, updateAssocAgg_lookup]
        by_cases huid : uid = r.userId
        · subst huid
          have hm : statMatches month omt team r.userId r = true := by
            simp [statMatches, hym, hallow]
          have hfc : (r :: stats).filter (statMatches month omt team r.userId) =
              r :: stats.filter (statMatches month omt team r.userId) := by
            simp [List.filter_cons, hm]
          rw [if_pos rfl, hfc]
          cases hl : acc.lookup r.userId with
          | none =>
            simp only [aggSpec, hfc]
            simp only [extendAgg, List.map_cons, List.sum_cons, List.length_cons,
              Option.some.injEq, AnalysisAgg.mk.injEq]
            refine ⟨trivial, by ring_nf, by omega⟩
          | some a =>
            simp only [extendAgg, List.map_cons, List.sum_cons, List.length_cons,
              Option.some.injEq, AnalysisAgg.mk.injEq]
            refine ⟨trivial, by ring_nf, by omega⟩
        · have hm : statMatches month omt team uid r = false := by
            have hne : ¬ (r.userId = uid) := fun hc => huid hc.symm
            simp [statMatches, hne]
          have hfc : (r :: stats).filter (statMatches month omt team uid) =
              stats.filter (statMatches month omt team uid) := by
            simp [List.filter_cons, hm]
          rw [if_neg huid]
          cases hl : acc.lookup uid with
          | none => simp only [aggSpec, hfc]
          | some a => simp only [hfc]
      · have hstep : addStatRec month omt team acc r = acc := by
          simp [addStatRec, hym, hallow]
        have hm : statMatches month omt team uid r = false := by
          simp [statMatches, hallow]
        have hfc : (r :: stats).filter (statMatches month omt team uid) =
            stats.filter (statMatches month omt team uid) := by
          simp [List.filter_cons, hm]
        rw [List.foldl_cons, hstep, ih]
        cases hl : acc.lookup uid with
        | none => simp only [aggSpec, hfc]
        | some a => simp only [hfc]
    · have hstep : addStatRec month omt team acc r = acc := by
        simp [addStatRec, hym]
      have hm : statMatches month omt team uid r = false := by
        simp [statMatches, hym]
      have hfc : (r :: stats).filter (statMatches month omt team uid) =
          stats.filter (statMatches month omt team uid) := by
        simp [List.filter_cons, hm]
      rw [List.foldl_cons, hstep, ih]
      cases hl : acc.lookup uid with
      | none => simp only [aggSpec, hfc]
      | some a => simp only [hfc]

/-- From the empty accumulator, the `per_user` aggregate of each user is
exactly the directly-specified one. -/
theorem perUserAgg_lookup_eq (stats : List StatRec) (month : String) (omt : Bool)
    (team : List String) (uid : Int) :
    (perUserAgg stats month omt team).lookup uid = aggSpec stats month omt team uid := by
  have h := perUserAgg_foldl_lookup month omt team stats [] uid
  simpa [perUserAgg] using h

/-- Records outside the month or the allow-list contribute nothing: the
fold equals the fold over the pre-filtered records. -/
theorem perUserAgg_filter_eq (month : String) (omt : Bool) (team : List String) :
    ∀ (stats : List StatRec) (acc : List (Int × AnalysisAgg)),
      stats.foldl (addStatRec month omt team) acc =
        (stats.filter (fun r => (r.ym == month) && analysisAllowed omt team r.username)).foldl
          (addStatRec month omt team) acc := by
  intro stats
  induction stats with
  | nil =>
    intro acc
    rfl
  | cons r stats ih =>
    intro acc
    by_cases hym : r.ym = month
    · by_cases hallow : analysisAllowed omt team r.username = true
      · have hkeep : ((r.ym == month) && analysisAllowed omt team r.username) = true := by
          simp [hym, hallow]
        rw [List.foldl_cons, List.filter_cons, if_pos hkeep, List.foldl_cons]
        exact ih _
      · have hdrop : ((r.ym == month) && analysisAllowed omt team r.username) = false := by
          simp [hallow]
        have hstep : addStatRec month omt team acc r = acc := by
          simp [addStatRec, hym, hallow]
        rw [List.foldl_cons, hstep, List.filter_cons, if_neg (by simp [hdrop])]
        exact ih _
    · have hdrop : ((r.ym == month) && analysisAllowed omt team r.username) = false := by
        simp [hym]
      have hstep : addStatRec month omt team acc r = acc := by
        simp [addStatRec, hym]
      rw [List.foldl_cons, hstep, List.filter_cons, if_neg (by simp [hdrop])]
      exact ih _

/-- C8: the analysis rows are sorted ascending by average with ties
broken by descending count (`rowRel`), they are a permutation of one row
per aggregated responder (`avg = sum/count`, via `rowOfAgg`), each
responder's aggregate is the sum/count/first-name of exactly that
responder's in-month allow-listed samples, and filtering out all
non-allow-listed or out-of-month records beforehand changes nothing —
exclusion is total, not cosmetic. -/
theorem claim_C8 (stats : List StatRec) (month : String) (omt : Bool) (team : List String) :
    List.Sorted rowRel (buildAnalysisRows stats month omt team)
  ∧ List.Perm (buildAnalysisRows stats month omt team)
      ((perUserAgg stats month omt team).map (fun p => rowOfAgg p.2))
  ∧ (∀ uid, (perUserAgg stats month omt team).lookup uid = aggSpec stats month omt team uid)
  ∧ buildAnalysisRows stats month omt team =
      buildAnalysisRows
        (stats.filter (fun r => (r.ym == month) && analysisAllowed omt team r.username))
        month omt team := by
  refine ⟨List.sorted_insertionSort rowRel _, List.perm_insertionSort rowRel _,
          fun uid => perUserAgg_lookup_eq stats month omt team uid, ?_⟩
  unfold buildAnalysisRows perUserAgg
  rw [← perUserAgg_filter_eq]

/-! ## C9: the identifier extractor -/


/-- Token characters are not whitespace. -/
theorem ws_false_of_token (c : Char) (h : isTokenCh c = true) : isWs c = false := by
  have h1 : c ≠ ' ' := fun hc => by rw [hc] at h; exact absurd h (by decide)
  have h2 : c ≠ '\t' := fun hc => by rw [hc] at h; exact absurd h (by decide)
  have h3 : c ≠ '\n' := fun hc => by rw [hc] at h; exact absurd h (by decide)
  have h4 : c ≠ '\r' := fun hc => by rw [hc] at h; exact absurd h (by decide)
  have h5 : c ≠ Char.ofNat 0x0b := fun hc => by rw [hc] at h; exact absurd h (by decide)
  have h6 : c ≠ Char.ofNat 0x0c := fun hc => by rw [hc] at h; exact absurd h (by decide)
  simp [isWs, h1, h2, h3, h4, h5, h6]

/-- Digits are not whitespace. -/
theorem ws_false_of_digit (c : Char) (h : isDigitCh c = true) : isWs c = false := by
  have h1 : c ≠ ' ' := fun hc => by rw [hc] at h; exact absurd h (by decide)
  have h2 : c ≠ '\t' := fun hc => by rw [hc] at h; exact absurd h (by decide)
  have h3 : c ≠ '\n' := fun hc => by rw [hc] at h; exact absurd h (by decide)
  have h4 : c ≠ '\r' := fun hc => by rw [hc] at h; exact absurd h (by decide)
  have h5 : c ≠ Char.ofNat 0x0b := fun hc => by rw [hc] at h; exact absurd h (by decide)
  have h6 : c ≠ Char.ofNat 0x0c := fun hc => by rw [hc] at h; exact absurd h (by decide)
  simp [isWs, h1, h2, h3, h4, h5, h6]

/-- Separator characters are not whitespace. -/
theorem ws_false_of_sep (c : Char) (h : isSepCh c = true) : isWs c = false := by
  have hs : c = ':' ∨ c = fwColon ∨ c = '-' := by
    simpa [isSepCh, or_assoc] using h
  rcases hs with hc | hc | hc <;> subst hc <;> decide

/-- Token characters are not separators. -/
theorem sep_false_of_token (c : Char) (h : isTokenCh c = true) : isSepCh c = false := by
  have h1 : c ≠ ':' := fun hc => by rw [hc] at h; exact absurd h (by decide)
  have h2 : c ≠ fwColon := fun hc => by rw [hc] at h; exact absurd h (by decide)
  have h3 : c ≠ '-' := fun hc => by rw [hc] at h; exact absurd h (by decide)
  simp [isSepCh, h1, h2, h3]

/-- A non-word character is not a token character. -/
theorem token_false_of_not_word (c : Char) (h : isWordCh c = false) : isTokenCh c = false := by
  simp [isWordCh] at h
  exact h.1

/-- A digit is not the marker glyph. -/
theorem glyph_not_digit (c : Char) (h : isDigitCh c = true) : c ≠ pinGlyph :=
  fun hc => by rw [hc] at h; exact absurd h (by decide)

/-- `takeWhile` over an append whose left part wholly satisfies `p`. -/
theorem takeWhile_append_all {p : Char → Bool} :
    ∀ (xs ys : List Char), (∀ x ∈ xs, p x = true) →
      (xs ++ ys).takeWhile p = xs ++ ys.takeWhile p := by
  intro xs
  induction xs with
  | nil => intro ys h; rfl
  | cons x xs ih =>
    intro ys h
    have hx : p x = true := h x (by simp)
    simp only [List.cons_append, List.takeWhile_cons_of_pos hx]
    rw [ih ys (fun a ha => h a (by simp [ha]))]

/-- `dropWhile` over an append whose left part wholly satisfies `p`. -/
theorem dropWhile_append_all {p : Char → Bool} :
    ∀ (xs ys : List Char), (∀ x ∈ xs, p x = true) →
      (xs ++ ys).dropWhile p = ys.dropWhile p := by
  intro xs
  induction xs with
  | nil => intro ys h; rfl
  | cons x xs ih =>
    intro xs2 h
    have hx : p x = true := h x (by simp)
    simp only [List.cons_append, List.dropWhile_cons_of_pos hx]
    exact ih xs2 (fun a ha => h a (by simp [ha]))

/-- The after-`#` parser on exactly `separator? ++ token ++ suffix` with
a word-boundary-compatible suffix returns the token and the suffix. -/
theorem parseTail_spec (sep : Option Char) (run suffix : List Char)
    (hsep : ∀ c, sep = some c → isSepCh c = true)
    (hrun : ∀ c ∈ run, isTokenCh c = true)
    (h6 : 6 ≤ run.length) (h20 : run.length ≤ 20)
    (hsuf : suffix = [] ∨ ∃ c cs, suffix = c :: cs ∧ isWordCh c = false) :
    parseTail (sep.toList ++ (run ++ suffix)) = some (run, suffix) := by
  obtain ⟨r0, run2, hrun0⟩ : ∃ r0 run2, run = r0 :: run2 := by
    cases run with
    | nil => simp at h6
    | cons a b => exact ⟨a, b, rfl⟩
  have hr0tok : isTokenCh r0 = true := hrun r0 (by rw [hrun0]; simp)
  -- step 1: cs5 = dropWhile ws (sep.toList ++ run ++ suffix) = sep.toList ++ run ++ suffix
  have hcs5 : (sep.toList ++ (run ++ suffix)).dropWhile isWs = sep.toList ++ (run ++ suffix) := by
    cases sep with
    | none =>
      simp only [Option.toList, List.nil_append]
      rw [hrun0]
      exact List.dropWhile_cons_of_neg (by simp [ws_false_of_token r0 hr0tok])
    | some c =>
      have hc : isSepCh c = true := hsep c rfl
      simp only [Option.toList]
      exact List.dropWhile_cons_of_neg (by simp [ws_false_of_sep c hc])
  -- step 2: cs6 strips the separator when present
  have hcs6 : (match sep.toList ++ (run ++ suffix) with
      | c :: t => if isSepCh c then t else sep.toList ++ (run ++ suffix)
      | [] => sep.toList ++ (run ++ suffix)) = run ++ suffix := by
    cases sep with
    | none =>
      simp only [Option.toList, List.nil_append]
      rw [hrun0]
      simp [sep_false_of_token r0 hr0tok]
    | some c =>
      have hc : isSepCh c = true := hsep c rfl
      simp [hc]
  -- step 3: cs7 = dropWhile ws (run ++ suffix) = run ++ suffix
  have hcs7 : (run ++ suffix).dropWhile isWs = run ++ suffix := by
    rw [hrun0]
    exact List.dropWhile_cons_of_neg (by simp [ws_false_of_token r0 hr0tok])
  -- step 4: the token run
  have htw : (run ++ suffix).takeWhile isTokenCh = run := by
    rw [takeWhile_append_all run suffix hrun]
    rcases hsuf with hemp | ⟨c, cs, hcons, hw⟩
    · rw [hemp]
      simp
    · rw [hcons]
      rw [List.takeWhile_cons_of_neg (by simp [token_false_of_not_word c hw])]
      simp
  have hdrop : (run ++ suffix).drop run.length = suffix := List.drop_left run suffix
  simp only [parseTail]
  rw [hcs5, hcs6, hcs7, htw, hdrop]
  rcases hsuf with hemp | ⟨c, cs, hcons, hw⟩
  · subst hemp
    simp [h6, h20]
  · subst hcons
    simp [h6, h20, hw]

/-- Modelled from the spec: the components of a line consisting of an
optional marker glyph, a numeric ordinal, the separator `#`, an optional
second separator, and a token of 6-20 alphanumeric characters. -/
structure ShapeLine where
  useGlyph : Bool
  ds : List Char
  sep : Option Char
  run : List Char
deriving DecidableEq

/-- The line the components spell out, with nothing else on it. -/
def ShapeLine.render (sl : ShapeLine) : List Char :=
  (if sl.useGlyph then [pinGlyph] else []) ++ sl.ds ++ '#' :: (sl.sep.toList ++ sl.run)

/-- Well-formedness of the components: nonempty ordinal of digits, token
of 6-20 alphanumerics, second separator among `:`, fullwidth colon, `-`. -/
def ShapeLine.ok (sl : ShapeLine) : Bool :=
  !sl.ds.isEmpty && sl.ds.all isDigitCh && sl.run.all isTokenCh &&
    decide (6 ≤ sl.run.length) && decide (sl.run.length ≤ 20) && sl.sep.all isSepCh

/-- An anchored attempt at the start of a well-shaped line followed by a
word-boundary-compatible suffix matches exactly the line and captures its
token. -/
theorem parsePinAt_render (sl : ShapeLine) (suffix : List Char) (hok : sl.ok = true)
    (hsuf : suffix = [] ∨ ∃ c cs, suffix = c :: cs ∧ isWordCh c = false) :
    parsePinAt (sl.render ++ suffix) = some (sl.run, suffix) := by
  obtain ⟨g, ds, sep, run⟩ := sl
  simp only [ShapeLine.ok, Bool.and_eq_true, Bool.not_eq_true', List.all_eq_true,
    decide_eq_true_eq] at hok
  obtain ⟨⟨⟨⟨⟨hdsne, hdsdig⟩, hruntok⟩, h6⟩, h20⟩, hsepok⟩ := hok
  obtain ⟨d0, ds2, hds0⟩ : ∃ d0 ds2, ds = d0 :: ds2 := by
    cases ds with
    | nil => simp at hdsne
    | cons a b => exact ⟨a, b, rfl⟩
  have hd0 : isDigitCh d0 = true := hdsdig d0 (by rw [hds0]; simp)
  have hsep2 : ∀ c, sep = some c → isSepCh c = true := by
    intro c hc
    rw [hc] at hsepok
    simpa using hsepok
  have htail : parseTail (sep.toList ++ (run ++ suffix)) = some (run, suffix) :=
    parseTail_spec sep run suffix hsep2 hruntok h6 h20 hsuf
  have hdsTW : (ds ++ ('#' :: (sep.toList ++ (run ++ suffix)))).takeWhile isDigitCh = ds := by
    rw [takeWhile_append_all ds _ hdsdig]
    rw [List.takeWhile_cons_of_neg (by decide)]
    simp
  have hdsDrop : (ds ++ ('#' :: (sep.toList ++ (run ++ suffix)))).drop ds.length =
      '#' :: (sep.toList ++ (run ++ suffix)) :=
    List.drop_left ds _
  have hdsWs : (ds ++ ('#' :: (sep.toList ++ (run ++ suffix)))).dropWhile isWs =
      ds ++ ('#' :: (sep.toList ++ (run ++ suffix))) := by
    rw [hds0]
    simp only [List.cons_append]
    exact List.dropWhile_cons_of_neg (by simp [ws_false_of_digit d0 hd0])
  have hhashWs : ('#' :: (sep.toList ++ (run ++ suffix))).dropWhile isWs =
      '#' :: (sep.toList ++ (run ++ suffix)) :=
    List.dropWhile_cons_of_neg (by decide)
  cases g with
  | false =>
    have hexp : ShapeLine.render ⟨false, ds, sep, run⟩ ++ suffix =
        ds ++ ('#' :: (sep.toList ++ (run ++ suffix))) := by
      simp [ShapeLine.render, List.append_assoc]
    rw [hexp]
    simp only [parsePinAt]
    rw [hdsWs]
    have hglyph : (match ds ++ ('#' :: (sep.toList ++ (run ++ suffix))) with
        | c :: t => if c = pinGlyph then t.dropWhile isWs
                    else ds ++ ('#' :: (sep.toList ++ (run ++ suffix)))
        | [] => ds ++ ('#' :: (sep.toList ++ (run ++ suffix)))) =
        ds ++ ('#' :: (sep.toList ++ (run ++ suffix))) := by
      rw [hds0]
      simp only [List.cons_append]
      have hne : d0 ≠ pinGlyph := fun hc => by
        rw [hc] at hd0
        exact absurd hd0 (by decide)
      simp [hne]
    rw [hglyph, hdsTW]
    have hne2 : ds.isEmpty = false := hdsne
    rw [if_neg (by simp [hne2])]
    rw [hdsDrop, hhashWs]
    exact htail
  | true =>
    have hexp : ShapeLine.render ⟨true, ds, sep, run⟩ ++ suffix =
        pinGlyph :: (ds ++ ('#' :: (sep.toList ++ (run ++ suffix)))) := by
      simp [ShapeLine.render, List.append_assoc]
    rw [hexp]
    simp only [parsePinAt]
    have hws : (pinGlyph :: (ds ++ ('#' :: (sep.toList ++ (run ++ suffix))))).dropWhile isWs =
        pinGlyph :: (ds ++ ('#' :: (sep.toList ++ (run ++ suffix)))) :=
      List.dropWhile_cons_of_neg (by decide)
    rw [hws]
    have hglyph : (match pinGlyph :: (ds ++ ('#' :: (sep.toList ++ (run ++ suffix)))) with
        | c :: t => if c = pinGlyph then t.dropWhile isWs
                    else pinGlyph :: (ds ++ ('#' :: (sep.toList ++ (run ++ suffix))))
        | [] => pinGlyph :: (ds ++ ('#' :: (sep.toList ++ (run ++ suffix))))) =
        ds ++ ('#' :: (sep.toList ++ (run ++ suffix))) := by
      simp [hdsWs]
    rw [hglyph, hdsTW]
    have hne2 : ds.isEmpty = false := hdsne
    rw [if_neg (by simp [hne2])]
    rw [hdsDrop, hhashWs]
    exact htail

/-- Scanning a text whose every line is well-shaped yields exactly one
token per line, in order. -/
theorem scanPins_joined :
    ∀ (sls : List ShapeLine) (fuel : Nat),
      (∀ sl ∈ sls, sl.ok = true) →
      (joinLines (sls.map ShapeLine.render)).length < fuel →
      scanPinsFuel fuel true (joinLines (sls.map ShapeLine.render)) =
        sls.map ShapeLine.run := by
  intro sls
  induction sls with
  | nil =>
    intro fuel hok hfuel
    cases fuel with
    | zero => simp [joinLines] at hfuel
    | succ n => rfl
  | cons sl sls ih =>
    intro fuel hok hfuel
    have hsl : sl.ok = true := hok sl (by simp)
    have hrest : ∀ x ∈ sls, x.ok = true := fun x hx => hok x (by simp [hx])
    have hne : sl.render ≠ [] := by
      intro hcontra
      simp [ShapeLine.render] at hcontra
    obtain ⟨c, rest, hcr⟩ := List.exists_cons_of_ne_nil hne
    cases sls with
    | nil =>
      have hjoin : joinLines ([sl].map ShapeLine.render) = sl.render := rfl
      rw [hjoin] at hfuel ⊢
      cases fuel with
      | zero => omega
      | succ n =>
        rw [hcr]
        have hparse : parsePinAt (c :: rest) = some (sl.run, []) := by
          rw [← hcr]
          have h := parsePinAt_render sl [] hsl (Or.inl rfl)
          simpa using h
        simp only [scanPinsFuel, if_true, hparse]
        cases n <;> rfl
    | cons sl2 sls2 =>
      have hjoin : joinLines ((sl :: sl2 :: sls2).map ShapeLine.render) =
          sl.render ++ '\n' :: joinLines ((sl2 :: sls2).map ShapeLine.render) := rfl
      rw [hjoin] at hfuel ⊢
      have hlen : (sl.render ++ '\n' :: joinLines ((sl2 :: sls2).map ShapeLine.render)).length =
          sl.render.length + 1 + (joinLines ((sl2 :: sls2).map ShapeLine.render)).length := by
        simp [List.length_append]
        omega
      have hrenlen : 1 ≤ sl.render.length := by
        rw [hcr]
        simp
      cases fuel with
      | zero => omega
      | succ n =>
        have hparse : parsePinAt
            (c :: (rest ++ '\n' :: joinLines ((sl2 :: sls2).map ShapeLine.render))) =
            some (sl.run, '\n' :: joinLines ((sl2 :: sls2).map ShapeLine.render)) := by
          rw [← List.cons_append, ← hcr]
          exact parsePinAt_render sl _ hsl
            (Or.inr ⟨'\n', joinLines ((sl2 :: sls2).map ShapeLine.render), rfl, by decide⟩)
        rw [hcr]
        simp only [List.cons_append, scanPinsFuel, if_true, List.append_eq, hparse]
        have hn : (joinLines ((sl2 :: sls2).map ShapeLine.render)).length + 1 < n := by
          omega
        cases n with
        | zero => omega
        | succ m =>
          have hstep : scanPinsFuel (m + 1) false
              ('\n' :: joinLines ((sl2 :: sls2).map ShapeLine.render)) =
              scanPinsFuel m true (joinLines ((sl2 :: sls2).map ShapeLine.render)) := by
            simp [scanPinsFuel]
          rw [hstep, ih m hrest (by omega)]
          rfl

/-- If the pattern matches at no anchor position (the start of the text
and each position after a newline), the scan finds nothing. -/
theorem scanPinsFuel_none :
    ∀ (fuel : Nat) (a : Bool) (cs : List Char),
      (∀ sfx ∈ anchorSuffixes a cs, parsePinAt sfx = none) →
      scanPinsFuel fuel a cs = [] := by
  intro fuel
  induction fuel with
  | zero => intro a cs h; rfl
  | succ n ih =>
    intro a cs h
    cases cs with
    | nil => rfl
    | cons c rest =>
      have hsub : ∀ sfx ∈ anchorSuffixes (decide (c = '\n')) rest,
          sfx ∈ anchorSuffixes a (c :: rest) := by
        intro sfx hs
        by_cases hc : c = '\n' <;> cases a <;>
          simp [anchorSuffixes, tailAnchors, hc] at hs ⊢ <;> tauto
      have hrest : ∀ sfx ∈ anchorSuffixes (decide (c = '\n')) rest, parsePinAt sfx = none :=
        fun sfx hs => h sfx (hsub sfx hs)
      cases a with
      | false =>
        simp only [scanPinsFuel, if_false]
        exact ih _ rest hrest
      | true =>
        have hhead : parsePinAt (c :: rest) = none := by
          apply h
          simp [anchorSuffixes]
        simp only [scanPinsFuel, if_true, hhead]
        exact ih _ rest hrest

/-- The dedup fold only ever grows its accumulator. -/
theorem mem_foldl_addIfAbsent_mono :
    ∀ (toks : List (List Char)) (acc : List String) (x : String), x ∈ acc →
      x ∈ toks.foldl (fun a t => addIfAbsent a (pinKeyOf t)) acc := by
  intro toks
  induction toks with
  | nil => intro acc x h; exact h
  | cons t toks ih =>
    intro acc x h
    rw [List.foldl_cons]
    refine ih _ x ?_
    unfold addIfAbsent
    by_cases hmem : pinKeyOf t ∈ acc
    · rw [if_pos hmem]
      exact h
    · rw [if_neg hmem]
      exact List.mem_append_left _ h

/-- Every scanned token's identifier lands in the dedup fold's result. -/
theorem mem_foldl_addIfAbsent :
    ∀ (toks : List (List Char)) (acc : List String) (t : List Char), t ∈ toks →
      pinKeyOf t ∈ toks.foldl (fun a t => addIfAbsent a (pinKeyOf t)) acc := by
  intro toks
  induction toks with
  | nil => intro acc t h; exact absurd h (List.not_mem_nil t)
  | cons t2 toks ih =>
    intro acc t h
    rw [List.foldl_cons]
    rcases List.mem_cons.mp h with heq | hmem
    · have hstep : pinKeyOf t ∈ addIfAbsent acc (pinKeyOf t2) := by
        rw [heq]
        unfold addIfAbsent
        by_cases hmem2 : pinKeyOf t2 ∈ acc
        · rw [if_pos hmem2]
          exact hmem2
        · rw [if_neg hmem2]
          exact List.mem_append_right _ (by simp)
      exact mem_foldl_addIfAbsent_mono toks _ _ hstep
    · exact ih _ t hmem

/-- The dedup fold preserves `Nodup`: the result is a set. -/
theorem foldl_addIfAbsent_nodup :
    ∀ (toks : List (List Char)) (acc : List String), acc.Nodup →
      (toks.foldl (fun a t => addIfAbsent a (pinKeyOf t)) acc).Nodup := by
  intro toks
  induction toks with
  | nil => intro acc h; exact h
  | cons t toks ih =>
    intro acc h
    rw [List.foldl_cons]
    refine ih _ ?_
    unfold addIfAbsent
    by_cases hmem : pinKeyOf t ∈ acc
    · rw [if_pos hmem]
      exact h
    · rw [if_neg hmem]
      rw [List.nodup_append]
      refine ⟨h, List.nodup_singleton _, ?_⟩
      intro a ha hb
      simp at hb
      subst hb
      exact hmem ha

/-- The extracted identifiers form a set (no duplicates). -/
theorem extract_nodup (text : String) : (extractPinLoadIds text).Nodup :=
  foldl_addIfAbsent_nodup (findPinTokens text.toList) [] List.nodup_nil

/-- The well-shaped line `123456#:ABCDEF` of the counterexample text. -/
def cex9Line : ShapeLine := ⟨false, ['1','2','3','4','5','6'], some ':', ['A','B','C','D','E','F']⟩

/-- C9 counterexample: in `"1#\n123456#:ABCDEF"` the second line is a
well-shaped line with token `ABCDEF`, yet the extractor returns only
`PIN:123456`: the match beginning on line one spans the newline (the
pattern's `\s` classes match `\n`) and consumes the second line's
ordinal as its token, so `PIN:ABCDEF` is never produced. -/
theorem claim_C9_counterexample :
    cex9Line.ok = true ∧
    ("1#\n123456#:ABCDEF").toList = joinLines [['1', '#'], cex9Line.render] ∧
    extractPinLoadIds "1#\n123456#:ABCDEF" = ["PIN:123456"] ∧
    pinKeyOf cex9Line.run = "PIN:ABCDEF" ∧
    "PIN:ABCDEF" ∉ extractPinLoadIds "1#\n123456#:ABCDEF" := by
  refine ⟨by decide, by decide, by decide, by decide, by decide⟩

/-- C9 amended: the extractor is a pure function; on a text all of whose
lines are well-shaped (so that no match begun on an earlier line can span
into a later one), every line contributes exactly its token upper-cased
and prefixed with `PIN:`; a text in which the pattern matches at no
anchor position yields the empty set; and the result is always
duplicate-free (set semantics). -/
theorem claim_C9_amended (sls : List ShapeLine) (h : ∀ sl ∈ sls, sl.ok = true) :
    findPinTokens (joinLines (sls.map ShapeLine.render)) = sls.map ShapeLine.run
  ∧ (∀ sl ∈ sls,
      pinKeyOf sl.run ∈ extractPinLoadIds (String.mk (joinLines (sls.map ShapeLine.render))))
  ∧ (∀ text : String,
      (∀ sfx ∈ anchorSuffixes true text.toList, parsePinAt sfx = none) →
      extractPinLoadIds text = [])
  ∧ ∀ text : String, (extractPinLoadIds text).Nodup := by
  have h1 : findPinTokens (joinLines (sls.map ShapeLine.render)) = sls.map ShapeLine.run :=
    scanPins_joined sls _ h (Nat.lt_succ_self _)
  refine ⟨h1, ?_, ?_, fun text => extract_nodup text⟩
  · intro sl hsl
    unfold extractPinLoadIds
    have h2 : (String.mk (joinLines (sls.map ShapeLine.render))).toList =
        joinLines (sls.map ShapeLine.render) := rfl
    rw [h2, h1]
    exact mem_foldl_addIfAbsent _ [] sl.run (List.mem_map_of_mem _ hsl)
  · intro text hnone
    unfold extractPinLoadIds findPinTokens
    rw [scanPinsFuel_none _ _ _ hnone]
    rfl

/-- Witness line `1#:ABCDEF`. -/
def wit9a : ShapeLine := ⟨false, ['1'], some ':', ['A','B','C','D','E','F']⟩

/-- Witness line `(glyph)2#XYZ999A`. -/
def wit9b : ShapeLine := ⟨true, ['2'], none, ['X','Y','Z','9','9','9','A']⟩

/-- C9 witness: a concrete two-line message yields both identifiers. -/
theorem claim_C9_amended_witness :
    (∀ sl ∈ [wit9a, wit9b], sl.ok = true) ∧
    findPinTokens (joinLines ([wit9a, wit9b].map ShapeLine.render)) =
      [wit9a.run, wit9b.run] ∧
    pinKeyOf wit9a.run ∈
      extractPinLoadIds (String.mk (joinLines ([wit9a, wit9b].map ShapeLine.render))) := by
  refine ⟨by decide, ?_, ?_⟩
  · exact (claim_C9_amended [wit9a, wit9b] (by decide)).1
  · exact (claim_C9_amended [wit9a, wit9b] (by decide)).2.1 wit9a (by simp)

end Watchdog
